import Mathlib

/-!
Verification of the CSV parsing and text-encoding detection engine of
vue-csv-processor, shallowly embedded in Lean 4.

Sources embedded:
- src/utils/csv-parser.js: parseCSV, detectDelimiter
- src/utils/encoding-detector.js: detectBOM, detectEncoding
- src/components/VueCsvMap.vue: autoMatchFields
- src/components/VueCsvProcessor.vue: autoMapColumns

Byte buffers are modelled as List Nat (each element a byte value),
JS strings as Lean String, and JS objects used as string-keyed
dictionaries as association lists in key-insertion order, where writing
an existing key replaces its value in place and writing a fresh key
appends it (exactly the observable behaviour of a JS object used this
way).
-/

namespace CsvProcessor

/-! ### Encoding detector (src/utils/encoding-detector.js) -/

/--
`detectBOM(buffer)` from encoding-detector.js. The JS reads
`new Uint8Array(buffer.slice(0, 4))` and compares the first bytes;
reading past the end of the buffer yields `undefined`, which compares
unequal to every byte value, so out-of-range accesses are modelled by
`List.get?` returning `none`. The checks appear in the source order:
UTF-8, UTF-16LE, UTF-16BE, UTF-32LE, UTF-32BE.
-/
def detectBOM (buffer : List Nat) : Option String :=
  let u := buffer.take 4
  if u.get? 0 == some 0xEF && u.get? 1 == some 0xBB && u.get? 2 == some 0xBF then
    some "UTF-8"
  else if u.get? 0 == some 0xFF && u.get? 1 == some 0xFE then
    some "UTF-16LE"
  else if u.get? 0 == some 0xFE && u.get? 1 == some 0xFF then
    some "UTF-16BE"
  else if u.get? 0 == some 0xFF && u.get? 1 == some 0xFE &&
      u.get? 2 == some 0x00 && u.get? 3 == some 0x00 then
    some "UTF-32LE"
  else if u.get? 0 == some 0x00 && u.get? 1 == some 0x00 &&
      u.get? 2 == some 0xFE && u.get? 3 == some 0xFF then
    some "UTF-32BE"
  else
    none

/-- `(byte & 0xC0) === 0x80`: the byte is a UTF-8 continuation byte. -/
def isContByte (b : Nat) : Bool := b &&& 0xC0 == 0x80

/--
The content-scan loop of `detectEncoding` from encoding-detector.js:
walks the bytes left to right; an ASCII byte is skipped; a lead byte in
0xC0-0xDF / 0xE0-0xEF / 0xF0-0xF7 must be followed inside the buffer by
1 / 2 / 3 continuation bytes (else the scan stops with `isUtf8 = false`);
any other byte above 127 stops the scan with `isUtf8 = false`. The first
component of the result is the final `isUtf8` flag, the second the final
`hasHighAscii` flag (set as soon as a byte above 127 is examined).
-/
def utf8Scan : List Nat → Bool → Bool × Bool
  | [], hh => (true, hh)
  | b :: rest, hh =>
    if 127 < b then
      if 0xC0 ≤ b && b ≤ 0xDF then
        match rest with
        | c1 :: rest2 =>
          if isContByte c1 then utf8Scan rest2 true else (false, true)
        | [] => (false, true)
      else if 0xE0 ≤ b && b ≤ 0xEF then
        match rest with
        | c1 :: c2 :: rest3 =>
          if isContByte c1 && isContByte c2 then utf8Scan rest3 true
          else (false, true)
        | _ => (false, true)
      else if 0xF0 ≤ b && b ≤ 0xF7 then
        match rest with
        | c1 :: c2 :: c3 :: rest4 =>
          if isContByte c1 && isContByte c2 && isContByte c3 then
            utf8Scan rest4 true
          else (false, true)
        | _ => (false, true)
      else (false, true)
    else utf8Scan rest hh

/--
`detectEncoding(buffer)` from encoding-detector.js: BOM check first,
then the structural UTF-8 scan; UTF-8 is reported only when the scan
succeeded and at least one byte above 127 was seen, otherwise
windows-1252.
-/
def detectEncoding (buffer : List Nat) : String :=
  match detectBOM buffer with
  | some bomEncoding => bomEncoding
  | none =>
    let scan := utf8Scan buffer false
    if scan.1 && scan.2 then "UTF-8" else "windows-1252"

/--
Spec-side characterisation of a structurally valid UTF-8 byte sequence,
written from the specification text: the buffer decomposes greedily into
chunks, each either a single ASCII byte or a lead byte in one of the
three multi-byte ranges followed by the expected number of continuation
bytes, all inside the buffer.
-/
inductive Utf8Chunks : List Nat → Prop where
  | nil : Utf8Chunks []
  | ascii {b : Nat} {r : List Nat} :
      b ≤ 127 → Utf8Chunks r → Utf8Chunks (b :: r)
  | two {b c1 : Nat} {r : List Nat} :
      0xC0 ≤ b → b ≤ 0xDF → isContByte c1 = true →
      Utf8Chunks r → Utf8Chunks (b :: c1 :: r)
  | three {b c1 c2 : Nat} {r : List Nat} :
      0xE0 ≤ b → b ≤ 0xEF → isContByte c1 = true → isContByte c2 = true →
      Utf8Chunks r → Utf8Chunks (b :: c1 :: c2 :: r)
  | four {b c1 c2 c3 : Nat} {r : List Nat} :
      0xF0 ≤ b → b ≤ 0xF7 → isContByte c1 = true → isContByte c2 = true →
      isContByte c3 = true → Utf8Chunks r → Utf8Chunks (b :: c1 :: c2 :: c3 :: r)

end CsvProcessor

namespace CsvProcessor

/-- Unfolding equation for `utf8Scan` on a non-empty buffer, stated and
proved by hand because the auto-generated equation lemmas are too large
for the elaborator. -/
theorem utf8Scan_cons (b : Nat) (rest : List Nat) (hh : Bool) :
    utf8Scan (b :: rest) hh =
      (if 127 < b then
        if 0xC0 ≤ b && b ≤ 0xDF then
          match rest with
          | c1 :: rest2 =>
            if isContByte c1 then utf8Scan rest2 true else (false, true)
          | [] => (false, true)
        else if 0xE0 ≤ b && b ≤ 0xEF then
          match rest with
          | c1 :: c2 :: rest3 =>
            if isContByte c1 && isContByte c2 then utf8Scan rest3 true
            else (false, true)
          | _ => (false, true)
        else if 0xF0 ≤ b && b ≤ 0xF7 then
          match rest with
          | c1 :: c2 :: c3 :: rest4 =>
            if isContByte c1 && isContByte c2 && isContByte c3 then
              utf8Scan rest4 true
            else (false, true)
          | _ => (false, true)
        else (false, true)
      else utf8Scan rest hh) := by
  cases rest with
  | nil => rfl
  | cons c1 t =>
    cases t with
    | nil => rfl
    | cons c2 t2 =>
      cases t2 with
      | nil => rfl
      | cons c3 t3 => rfl

/-- The structural scan succeeds exactly on greedily valid UTF-8 chunk
sequences; the initial `hasHighAscii` flag does not influence validity. -/
theorem utf8Scan_fst_iff : ∀ (l : List Nat) (hh : Bool),
    ((utf8Scan l hh).1 = true ↔ Utf8Chunks l) := by
  intro l hh
  induction l, hh using utf8Scan.induct with
  | case1 hh =>
    simpa [show utf8Scan [] hh = (true, hh) from rfl] using Utf8Chunks.nil
  | case2 b hh h127 hrange c1 rest2 hcont ih =>
    have he : utf8Scan (b :: c1 :: rest2) hh = utf8Scan rest2 true := by
      rw [utf8Scan_cons]
      simp [h127, hrange, hcont]
    rw [he]
    simp only [Bool.and_eq_true, decide_eq_true_eq] at hrange
    constructor
    · intro h
      exact Utf8Chunks.two hrange.1 hrange.2 hcont (ih.mp h)
    · intro h
      cases h with
      | ascii hb _ => omega
      | two _ _ _ hr => exact ih.mpr hr
      | three h1 _ _ _ _ => omega
      | four h1 _ _ _ _ _ => omega
  | case3 b hh h127 hrange c1 rest2 hcont =>
    have he : utf8Scan (b :: c1 :: rest2) hh = (false, true) := by
      rw [utf8Scan_cons]
      simp [h127, hrange, hcont]
    rw [he]
    simp only [Bool.and_eq_true, decide_eq_true_eq] at hrange
    simp only [show ((false, true) : Bool × Bool).1 = false from rfl,
      Bool.false_eq_true, false_iff]
    intro h
    cases h with
    | ascii hb _ => omega
    | two _ _ hc _ => exact hcont hc
    | three h1 _ _ _ _ => omega
    | four h1 _ _ _ _ _ => omega
  | case4 b hh h127 hrange =>
    have he : utf8Scan [b] hh = (false, true) := by
      rw [utf8Scan_cons]
      simp [h127, hrange]
    rw [he]
    simp only [Bool.and_eq_true, decide_eq_true_eq] at hrange
    simp only [show ((false, true) : Bool × Bool).1 = false from rfl,
      Bool.false_eq_true, false_iff]
    intro h
    cases h with
    | ascii hb _ => omega
  | case5 b hh h127 hn2 hrange c1 c2 rest3 hcont ih =>
    have he : utf8Scan (b :: c1 :: c2 :: rest3) hh = utf8Scan rest3 true := by
      rw [utf8Scan_cons]
      simp [h127, hn2, hrange, hcont]
    rw [he]
    simp only [Bool.and_eq_true, decide_eq_true_eq] at hrange hcont
    simp only [Bool.and_eq_true, decide_eq_true_eq, not_and] at hn2
    constructor
    · intro h
      exact Utf8Chunks.three hrange.1 hrange.2 hcont.1 hcont.2 (ih.mp h)
    · intro h
      cases h with
      | ascii hb _ => omega
      | two h1 h2 _ _ => omega
      | three _ _ _ _ hr => exact ih.mpr hr
      | four h1 _ _ _ _ _ => omega
  | case6 b hh h127 hn2 hrange c1 c2 rest3 hcont =>
    have he : utf8Scan (b :: c1 :: c2 :: rest3) hh = (false, true) := by
      rw [utf8Scan_cons]
      simp [h127, hn2, hrange, hcont]
    rw [he]
    simp only [Bool.and_eq_true, decide_eq_true_eq] at hrange
    simp only [Bool.and_eq_true, decide_eq_true_eq, not_and] at hn2
    simp only [show ((false, true) : Bool × Bool).1 = false from rfl,
      Bool.false_eq_true, false_iff]
    intro h
    cases h with
    | ascii hb _ => omega
    | two h1 h2 _ _ => omega
    | three _ _ hc1 hc2 _ =>
      exact hcont (by simp [hc1, hc2])
    | four h1 _ _ _ _ _ => omega
  | case7 b rest hh h127 hn2 hrange hshape =>
    have he : utf8Scan (b :: rest) hh = (false, true) := by
      rw [utf8Scan_cons]
      cases rest with
      | nil => simp [h127, hn2, hrange]
      | cons c1 t =>
        cases t with
        | nil => simp [h127, hn2, hrange]
        | cons c2 t2 => exact absurd rfl (hshape c1 c2 t2)
    rw [he]
    simp only [Bool.and_eq_true, decide_eq_true_eq] at hrange
    simp only [Bool.and_eq_true, decide_eq_true_eq, not_and] at hn2
    simp only [show ((false, true) : Bool × Bool).1 = false from rfl,
      Bool.false_eq_true, false_iff]
    intro h
    cases h with
    | ascii hb _ => omega
    | two h1 h2 _ _ => omega
    | three _ _ _ _ _ => exact hshape _ _ _ rfl
    | four h1 _ _ _ _ _ => omega
  | case8 b hh h127 hn2 hn3 hrange c1 c2 c3 rest4 hcont ih =>
    have he : utf8Scan (b :: c1 :: c2 :: c3 :: rest4) hh = utf8Scan rest4 true := by
      rw [utf8Scan_cons]
      simp [h127, hn2, hn3, hrange, hcont]
    rw [he]
    simp only [Bool.and_eq_true, decide_eq_true_eq] at hrange hcont
    simp only [Bool.and_eq_true, decide_eq_true_eq, not_and] at hn2 hn3
    constructor
    · intro h
      exact Utf8Chunks.four hrange.1 hrange.2 hcont.1.1 hcont.1.2 hcont.2 (ih.mp h)
    · intro h
      cases h with
      | ascii hb _ => omega
      | two h1 h2 _ _ => omega
      | three h1 h2 _ _ _ => omega
      | four _ _ _ _ _ hr => exact ih.mpr hr
  | case9 b hh h127 hn2 hn3 hrange c1 c2 c3 rest4 hcont =>
    have he : utf8Scan (b :: c1 :: c2 :: c3 :: rest4) hh = (false, true) := by
      rw [utf8Scan_cons]
      simp [h127, hn2, hn3, hrange, hcont]
    rw [he]
    simp only [Bool.and_eq_true, decide_eq_true_eq] at hrange
    simp only [Bool.and_eq_true, decide_eq_true_eq, not_and] at hn2 hn3
    simp only [show ((false, true) : Bool × Bool).1 = false from rfl,
      Bool.false_eq_true, false_iff]
    intro h
    cases h with
    | ascii hb _ => omega
    | two h1 h2 _ _ => omega
    | three h1 h2 _ _ _ => omega
    | four _ _ hc1 hc2 hc3 _ =>
      exact hcont (by simp [hc1, hc2, hc3])
  | case10 b rest hh h127 hn2 hn3 hrange hshape =>
    have he : utf8Scan (b :: rest) hh = (false, true) := by
      rw [utf8Scan_cons]
      cases rest with
      | nil => simp [h127, hn2, hn3, hrange]
      | cons c1 t =>
        cases t with
        | nil => simp [h127, hn2, hn3, hrange]
        | cons c2 t2 =>
          cases t2 with
          | nil => simp [h127, hn2, hn3, hrange]
          | cons c3 t3 => exact absurd rfl (hshape c1 c2 c3 t3)
    rw [he]
    simp only [Bool.and_eq_true, decide_eq_true_eq] at hrange
    simp only [Bool.and_eq_true, decide_eq_true_eq, not_and] at hn2 hn3
    simp only [show ((false, true) : Bool × Bool).1 = false from rfl,
      Bool.false_eq_true, false_iff]
    intro h
    cases h with
    | ascii hb _ => omega
    | two h1 h2 _ _ => omega
    | three h1 h2 _ _ _ => omega
    | four _ _ _ _ _ _ => exact hshape _ _ _ _ rfl
  | case11 b rest hh h127 hn2 hn3 hn4 =>
    have he : utf8Scan (b :: rest) hh = (false, true) := by
      rw [utf8Scan_cons]
      cases rest with
      | nil => simp [h127, hn2, hn3, hn4]
      | cons c1 t => simp [h127, hn2, hn3, hn4]
    rw [he]
    simp only [Bool.and_eq_true, decide_eq_true_eq, not_and] at hn2 hn3 hn4
    simp only [show ((false, true) : Bool × Bool).1 = false from rfl,
      Bool.false_eq_true, false_iff]
    intro h
    cases h with
    | ascii hb _ => omega
    | two h1 h2 _ _ => omega
    | three h1 h2 _ _ _ => omega
    | four h1 h2 _ _ _ _ => omega
  | case12 b rest hh h127 ih =>
    have he : utf8Scan (b :: rest) hh = utf8Scan rest hh := by
      rw [utf8Scan_cons, if_neg h127]
    rw [he]
    constructor
    · intro h
      exact Utf8Chunks.ascii (by omega) (ih.mp h)
    · intro h
      cases h with
      | ascii _ hr => exact ih.mpr hr
      | two h1 h2 _ _ => omega
      | three h1 h2 _ _ _ => omega
      | four h1 h2 _ _ _ _ => omega

/-- On a chunk-valid buffer the scan's `hasHighAscii` output is the
initial flag joined with "some byte exceeds 127". -/
theorem utf8Scan_snd_of_chunks {l : List Nat} (h : Utf8Chunks l) :
    ∀ hh : Bool, (utf8Scan l hh).2 = (hh || l.any (fun b => decide (127 < b))) := by
  induction h with
  | nil =>
    intro hh
    simp [show ∀ h2, utf8Scan [] h2 = (true, h2) from fun h2 => rfl]
  | @ascii b r hb hr ih =>
    intro hh
    have hnb : ¬ 127 < b := by omega
    rw [utf8Scan_cons, if_neg hnb, ih hh]
    have hdb : decide (127 < b) = false := by simp [hnb]
    simp [hdb]
  | @two b c1 r h1 h2 hc hr ih =>
    intro hh
    have hb : 127 < b := by omega
    have he : utf8Scan (b :: c1 :: r) hh = utf8Scan r true := by
      rw [utf8Scan_cons]
      simp [hb, h1, h2, hc]
    have hdb : decide (127 < b) = true := by simp [hb]
    rw [he, ih true]
    simp [hdb]
  | @three b c1 c2 r h1 h2 hc1 hc2 hr ih =>
    intro hh
    have hb : 127 < b := by omega
    have hn2 : ¬ (0xC0 ≤ b ∧ b ≤ 0xDF) := by omega
    have he : utf8Scan (b :: c1 :: c2 :: r) hh = utf8Scan r true := by
      rw [utf8Scan_cons]
      simp [hb, h1, h2, hc1, hc2, hn2]
    have hdb : decide (127 < b) = true := by simp [hb]
    rw [he, ih true]
    simp [hdb]
  | @four b c1 c2 c3 r h1 h2 hc1 hc2 hc3 hr ih =>
    intro hh
    have hb : 127 < b := by omega
    have hn2 : ¬ (0xC0 ≤ b ∧ b ≤ 0xDF) := by omega
    have hn3 : ¬ (0xE0 ≤ b ∧ b ≤ 0xEF) := by omega
    have he : utf8Scan (b :: c1 :: c2 :: c3 :: r) hh = utf8Scan r true := by
      rw [utf8Scan_cons]
      simp [hb, h1, h2, hc1, hc2, hc3, hn2, hn3]
    have hdb : decide (127 < b) = true := by simp [hb]
    rw [he, ih true]
    simp [hdb]

/--
**C7.** For every BOM-less buffer, `detectEncoding` returns UTF-8 exactly
when the buffer contains at least one byte above 127 and decomposes into
structurally valid UTF-8 chunks (ASCII bytes and complete multi-byte
sequences); otherwise — empty buffers, pure-ASCII buffers, and buffers
with an invalid sequence included — it returns Windows-1252.
-/
theorem detectEncoding_noBOM_utf8_iff (buffer : List Nat)
    (hbom : detectBOM buffer = none) :
    (detectEncoding buffer = "UTF-8" ↔
      (Utf8Chunks buffer ∧ ∃ b ∈ buffer, 127 < b)) ∧
    (¬(Utf8Chunks buffer ∧ ∃ b ∈ buffer, 127 < b) →
      detectEncoding buffer = "windows-1252") := by
  have hd : detectEncoding buffer =
      (if (utf8Scan buffer false).1 && (utf8Scan buffer false).2 then "UTF-8"
       else "windows-1252") := by
    simp only [detectEncoding, hbom]
  have key : ((utf8Scan buffer false).1 && (utf8Scan buffer false).2) = true ↔
      (Utf8Chunks buffer ∧ ∃ b ∈ buffer, 127 < b) := by
    rw [Bool.and_eq_true]
    constructor
    · intro hs
      have hch := (utf8Scan_fst_iff buffer false).1 hs.1
      refine ⟨hch, ?_⟩
      have h2 := utf8Scan_snd_of_chunks hch false
      rw [hs.2] at h2
      have hany : buffer.any (fun b => decide (127 < b)) = true := by
        simpa using h2.symm
      obtain ⟨b, hb, hgt⟩ := List.any_eq_true.1 hany
      exact ⟨b, hb, by simpa using hgt⟩
    · rintro ⟨hch, b, hb, hgt⟩
      refine ⟨(utf8Scan_fst_iff buffer false).2 hch, ?_⟩
      rw [utf8Scan_snd_of_chunks hch false]
      simp only [Bool.false_or]
      exact List.any_eq_true.2 ⟨b, hb, by simpa using hgt⟩
  constructor
  · rw [hd]
    constructor
    · intro h
      by_cases hs : ((utf8Scan buffer false).1 && (utf8Scan buffer false).2) = true
      · exact key.1 hs
      · rw [if_neg hs] at h
        exact absurd h (by decide)
    · intro h
      rw [if_pos (key.2 h)]
  · intro hn
    rw [hd, if_neg (fun hs => hn (key.1 hs))]

/-- Witness for C7: the two-byte buffer C3 A9 (the UTF-8 encoding of a
Latin small letter e with acute) has no BOM and is classified UTF-8. -/
theorem detectEncoding_noBOM_utf8_iff_witness :
    detectEncoding [0xC3, 0xA9] = "UTF-8" :=
  (detectEncoding_noBOM_utf8_iff [0xC3, 0xA9] (by decide)).1.mpr
    ⟨Utf8Chunks.two (by decide) (by decide) (by decide) Utf8Chunks.nil,
     0xC3, by decide, by decide⟩

/-- The UTF-32LE BOM bytes, as named failing input for BOM detection. -/
def utf32leBOM : List Nat := [0xFF, 0xFE, 0x00, 0x00]

/--
**C1.** The claim states that a buffer whose first four bytes are
FF FE 00 00 is detected as UTF-32LE because the longer UTF-32LE pattern
is tested before the two-byte UTF-16LE pattern. In the code the
UTF-16LE check `FF FE` comes first, so `detectBOM` (and hence
`detectEncoding`) returns UTF-16LE on this buffer and the UTF-32LE
branch is unreachable: the code diverges from the claim at the input
[0xFF, 0xFE, 0x00, 0x00].
-/
theorem detectBOM_ff_fe_00_00_returns_utf16le :
    detectBOM utf32leBOM = some "UTF-16LE" ∧
    detectEncoding utf32leBOM = "UTF-16LE" := by
  constructor <;> rfl

/-! ### Delimiter detector (src/utils/csv-parser.js, detectDelimiter) -/

/--
The JS `csvContent.split(/\r?\n/)`: the character stream is cut at every
line feed or carriage-return-line-feed pair; a carriage return not
followed by a line feed stays inside its line.
-/
def splitLinesRN : List Char → String → List String
  | [], acc => [acc]
  | '\r' :: '\n' :: rest, acc => acc :: splitLinesRN rest ""
  | '\n' :: rest, acc => acc :: splitLinesRN rest ""
  | c :: rest, acc => splitLinesRN rest (acc.push c)

/-- The sample inspected by `detectDelimiter`: the first five lines,
re-joined with line feeds, as in the source. -/
def sampleOf (csvContent : String) : String :=
  String.intercalate "\n" ((splitLinesRN csvContent.data "").take 5)

/--
`detectDelimiter(csvContent)` from csv-parser.js: counts raw occurrences
of comma, semicolon, tab and pipe in the five-line sample, then walks the
candidates in that order keeping the first one whose count strictly
exceeds the running maximum (initially 0 with comma as default).
-/
def detectDelimiter (csvContent : String) : String :=
  let sampleLines := sampleOf csvContent
  let counts : List (String × Nat) :=
    [(",", sampleLines.data.count ','),
     (";", sampleLines.data.count ';'),
     ("\t", sampleLines.data.count '\t'),
     ("|", sampleLines.data.count '|')]
  (counts.foldl (fun acc p => if p.2 > acc.2 then p else acc) (",", 0)).1

/-- Computation of the candidate fold for arbitrary counts `a b c d` of
comma, semicolon, tab, pipe: the four winner cases. -/
theorem detectFold_cases (a b c d : Nat) :
    (a ≥ b → a ≥ c → a ≥ d →
      (([(",", a), (";", b), ("\t", c), ("|", d)] :
          List (String × Nat)).foldl
        (fun acc p => if p.2 > acc.2 then p else acc) (",", 0)).1 = ",") ∧
    (b > a → b ≥ c → b ≥ d →
      (([(",", a), (";", b), ("\t", c), ("|", d)] :
          List (String × Nat)).foldl
        (fun acc p => if p.2 > acc.2 then p else acc) (",", 0)).1 = ";") ∧
    (c > a → c > b → c ≥ d →
      (([(",", a), (";", b), ("\t", c), ("|", d)] :
          List (String × Nat)).foldl
        (fun acc p => if p.2 > acc.2 then p else acc) (",", 0)).1 = "\t") ∧
    (d > a → d > b → d > c →
      (([(",", a), (";", b), ("\t", c), ("|", d)] :
          List (String × Nat)).foldl
        (fun acc p => if p.2 > acc.2 then p else acc) (",", 0)).1 = "|") := by
  refine ⟨?_, ?_, ?_, ?_⟩ <;>
    · intro h1 h2 h3
      simp only [List.foldl]
      split_ifs <;> simp_all <;> omega

/--
**C8.** `detectDelimiter` counts raw comma/semicolon/tab/pipe occurrences
in only the first five lines and returns the candidate with the strictly
highest count; ties keep the earlier candidate in the order comma,
semicolon, tab, pipe (so comma wins all its ties, including the all-zero
case).
-/
theorem detectDelimiter_precedence (s : String) :
    (((sampleOf s).data.count ',' ≥ (sampleOf s).data.count ';' →
      (sampleOf s).data.count ',' ≥ (sampleOf s).data.count '\t' →
      (sampleOf s).data.count ',' ≥ (sampleOf s).data.count '|' →
        detectDelimiter s = ",")) ∧
    (((sampleOf s).data.count ';' > (sampleOf s).data.count ',' →
      (sampleOf s).data.count ';' ≥ (sampleOf s).data.count '\t' →
      (sampleOf s).data.count ';' ≥ (sampleOf s).data.count '|' →
        detectDelimiter s = ";")) ∧
    (((sampleOf s).data.count '\t' > (sampleOf s).data.count ',' →
      (sampleOf s).data.count '\t' > (sampleOf s).data.count ';' →
      (sampleOf s).data.count '\t' ≥ (sampleOf s).data.count '|' →
        detectDelimiter s = "\t")) ∧
    (((sampleOf s).data.count '|' > (sampleOf s).data.count ',' →
      (sampleOf s).data.count '|' > (sampleOf s).data.count ';' →
      (sampleOf s).data.count '|' > (sampleOf s).data.count '\t' →
        detectDelimiter s = "|")) := by
  have hd : detectDelimiter s =
      (([(",", (sampleOf s).data.count ','),
         (";", (sampleOf s).data.count ';'),
         ("\t", (sampleOf s).data.count '\t'),
         ("|", (sampleOf s).data.count '|')] :
          List (String × Nat)).foldl
        (fun acc p => if p.2 > acc.2 then p else acc) (",", 0)).1 := rfl
  have hc := detectFold_cases ((sampleOf s).data.count ',')
    ((sampleOf s).data.count ';') ((sampleOf s).data.count '\t')
    ((sampleOf s).data.count '|')
  refine ⟨?_, ?_, ?_, ?_⟩ <;> intro h1 h2 h3 <;> rw [hd]
  · exact hc.1 h1 h2 h3
  · exact hc.2.1 h1 h2 h3
  · exact hc.2.2.1 h1 h2 h3
  · exact hc.2.2.2 h1 h2 h3

/-- Witness for C8: a one-one comma/semicolon tie detects comma, and a
semicolon majority detects semicolon. -/
theorem detectDelimiter_precedence_witness :
    detectDelimiter "a,b;c" = "," ∧ detectDelimiter "x;y;z,w" = ";" :=
  ⟨(detectDelimiter_precedence "a,b;c").1 (by decide) (by decide) (by decide),
   (detectDelimiter_precedence "x;y;z,w").2.1 (by decide) (by decide) (by decide)⟩

/-! ### CSV tokenizer/parser (src/utils/csv-parser.js, parseCSV) -/

/-- The options object taken by `parseCSV`, with the source defaults. -/
structure ParseOptions where
  hasHeaders : Bool := true
  delimiter : String := ""
  trimFields : Bool := true
  encoding : String := "UTF-8"
  skipEmptyLines : Bool := true

/-- The mutable locals of the character loop of `parseCSV`: committed
lines, the fields of the line being built, the field accumulator, and the
quote flag. -/
structure TokState where
  lines : List (List String)
  currentLine : List String
  currentField : String
  inQuotes : Bool

/-- JS `String.prototype.trim`, modelled structurally over the character
list (Lean's own `String.trim` is defined on byte positions and does not
reduce inside the kernel): drop whitespace characters from both ends.
The whitespace set is modelled as space, tab, carriage return and line
feed. -/
def trimString (s : String) : String :=
  ⟨((s.data.dropWhile Char.isWhitespace).reverse.dropWhile
      Char.isWhitespace).reverse⟩

/-- A field as pushed onto the current line: trimmed when `trimFields`. -/
def closeField (trimFields : Bool) (s : String) : String :=
  if trimFields then trimString s else s

/-- The end-of-line step of the loop: push the pending field, commit the
line unless it is all-empty and `skipEmptyLines` is set, reset the line
and field accumulators. -/
def commitLine (trimFields skipEmptyLines : Bool) (st : TokState) : TokState :=
  let line := st.currentLine ++ [closeField trimFields st.currentField]
  { lines :=
      if !skipEmptyLines || line.any (fun f => f.length > 0) then
        st.lines ++ [line]
      else st.lines,
    currentLine := [], currentField := "", inQuotes := st.inQuotes }

/-- The end-of-input handling after the loop: a pending field or pending
line content is committed under the same empty-line rule. -/
def flushLines (trimFields skipEmptyLines : Bool) (st : TokState) : List (List String) :=
  if st.currentField.length > 0 || st.currentLine.length > 0 then
    (commitLine trimFields skipEmptyLines st).lines
  else st.lines

/--
The character loop of `parseCSV` (csv-parser.js lines 45-100), with the
branch order of the source: quote handling first (escaped doubled quote
inside quotes, else toggle), then the delimiter test (explicit delimiter,
or comma when the delimiter option is empty) outside quotes, then the
line break test (`\n`, or `\r` immediately followed by `\n`, consuming
both) outside quotes, then the default append of the character to the
field accumulator. The one-character lookahead `nextChar` of the source
(the empty string at the last character) is made explicit by matching on
one or two leading characters.
-/
def tokenize (delimiter : String) (trimFields skipEmptyLines : Bool) :
    List Char → TokState → List (List String)
  | [], st => flushLines trimFields skipEmptyLines st
  | [c], st =>
    if c == '\"' then
      tokenize delimiter trimFields skipEmptyLines []
        { st with inQuotes := !st.inQuotes }
    else if (String.singleton c == delimiter ||
        (delimiter == "" && c == ',')) && !st.inQuotes then
      tokenize delimiter trimFields skipEmptyLines []
        { st with
            currentLine := st.currentLine ++ [closeField trimFields st.currentField],
            currentField := "" }
    else if c == '\n' && !st.inQuotes then
      tokenize delimiter trimFields skipEmptyLines []
        (commitLine trimFields skipEmptyLines st)
    else
      tokenize delimiter trimFields skipEmptyLines []
        { st with currentField := st.currentField.push c }
  | c :: c2 :: rest2, st =>
    if c == '\"' then
      if st.inQuotes && c2 == '\"' then
        tokenize delimiter trimFields skipEmptyLines rest2
          { st with currentField := st.currentField.push '\"' }
      else
        tokenize delimiter trimFields skipEmptyLines (c2 :: rest2)
          { st with inQuotes := !st.inQuotes }
    else if (String.singleton c == delimiter ||
        (delimiter == "" && c == ',')) && !st.inQuotes then
      tokenize delimiter trimFields skipEmptyLines (c2 :: rest2)
        { st with
            currentLine := st.currentLine ++ [closeField trimFields st.currentField],
            currentField := "" }
    else if c == '\n' && !st.inQuotes then
      tokenize delimiter trimFields skipEmptyLines (c2 :: rest2)
        (commitLine trimFields skipEmptyLines st)
    else if c == '\r' && c2 == '\n' && !st.inQuotes then
      tokenize delimiter trimFields skipEmptyLines rest2
        (commitLine trimFields skipEmptyLines st)
    else
      tokenize delimiter trimFields skipEmptyLines (c2 :: rest2)
        { st with currentField := st.currentField.push c }

/-- Unfolding equation for `tokenize` on an input with a single remaining
character. -/
theorem tokenize_one (delimiter : String) (trimFields skipEmptyLines : Bool)
    (c : Char) (st : TokState) :
    tokenize delimiter trimFields skipEmptyLines [c] st =
      (if c == '\"' then
        tokenize delimiter trimFields skipEmptyLines []
          { st with inQuotes := !st.inQuotes }
      else if (String.singleton c == delimiter ||
          (delimiter == "" && c == ',')) && !st.inQuotes then
        tokenize delimiter trimFields skipEmptyLines []
          { st with
              currentLine := st.currentLine ++ [closeField trimFields st.currentField],
              currentField := "" }
      else if c == '\n' && !st.inQuotes then
        tokenize delimiter trimFields skipEmptyLines []
          (commitLine trimFields skipEmptyLines st)
      else
        tokenize delimiter trimFields skipEmptyLines []
          { st with currentField := st.currentField.push c }) := rfl

/-- Unfolding equation for `tokenize` on an input with at least two
remaining characters. -/
theorem tokenize_cons2 (delimiter : String) (trimFields skipEmptyLines : Bool)
    (c c2 : Char) (rest2 : List Char) (st : TokState) :
    tokenize delimiter trimFields skipEmptyLines (c :: c2 :: rest2) st =
      (if c == '\"' then
        if st.inQuotes && c2 == '\"' then
          tokenize delimiter trimFields skipEmptyLines rest2
            { st with currentField := st.currentField.push '\"' }
        else
          tokenize delimiter trimFields skipEmptyLines (c2 :: rest2)
            { st with inQuotes := !st.inQuotes }
      else if (String.singleton c == delimiter ||
          (delimiter == "" && c == ',')) && !st.inQuotes then
        tokenize delimiter trimFields skipEmptyLines (c2 :: rest2)
          { st with
              currentLine := st.currentLine ++ [closeField trimFields st.currentField],
              currentField := "" }
      else if c == '\n' && !st.inQuotes then
        tokenize delimiter trimFields skipEmptyLines (c2 :: rest2)
          (commitLine trimFields skipEmptyLines st)
      else if c == '\r' && c2 == '\n' && !st.inQuotes then
        tokenize delimiter trimFields skipEmptyLines rest2
          (commitLine trimFields skipEmptyLines st)
      else
        tokenize delimiter trimFields skipEmptyLines (c2 :: rest2)
          { st with currentField := st.currentField.push c }) := rfl

/-- JS `if (csvText.charCodeAt(0) === 0xFEFF) csvText = csvText.slice(1)`:
drop a leading byte-order-mark character. -/
def stripBOM (cs : List Char) : List Char :=
  match cs with
  | c :: rest => if c == Char.ofNat 0xFEFF then rest else cs
  | [] => []

/-- The initial loop state of `parseCSV`. -/
def initState : TokState :=
  { lines := [], currentLine := [], currentField := "", inQuotes := false }

/-- The full tokenization stage of `parseCSV` on string content. -/
def tokenizeCSV (options : ParseOptions) (content : String) : List (List String) :=
  tokenize options.delimiter options.trimFields options.skipEmptyLines
    (stripBOM content.data) initState

/-- JS object assignment `row[header] = value` on a string-keyed object
represented as an association list in key-insertion order: an existing
key keeps its position and gets the new value, a fresh key is appended. -/
def setKey (k v : String) : List (String × String) → List (String × String)
  | [] => [(k, v)]
  | (k2, v2) :: rest => if k2 == k then (k, v) :: rest else (k2, v2) :: setKey k v rest

/-- The row-building loop of `parseCSV`:
`headers.forEach((header, index) => row[header] = index < line.length ?
line[index] : "")`. -/
def makeRow (headers line : List String) : List (String × String) :=
  headers.enum.foldl
    (fun row p => setKey p.2 (if p.1 < line.length then line.getD p.1 "" else "") row)
    []

/-- The error entry pushed for a line whose field count differs from the
header count. -/
def lineError (headers line : List String) (lineIndex : Nat) : List String :=
  if line.length != headers.length then
    ["Line " ++ toString (lineIndex + 1) ++ " has " ++ toString line.length ++
      " fields, expected " ++ toString headers.length]
  else []

/-- Pad a short line with empty strings, or truncate a long one, to the
header count. -/
def adjustLine (n : Nat) (line : List String) : List String :=
  if line.length < n then line ++ List.replicate (n - line.length) "" else line.take n

/-- The post-tokenization mapping of data lines to rows and errors. In the
source a single `lines.map` fills the error array by mutation while
producing the rows; the two components are computed here side by side,
with identical results. -/
def parseBody (headers : List String) (dataLines : List (List String)) :
    List (List (String × String)) × List String :=
  (dataLines.enum.map (fun p =>
      makeRow headers
        (if p.2.length != headers.length then adjustLine headers.length p.2 else p.2)),
   (dataLines.enum.map (fun p => lineError headers p.2 p.1)).flatten)

/-- The result object of `parseCSV`. -/
structure ParseResult where
  data : List (List (String × String))
  headers : List String
  errors : List String
deriving DecidableEq

/-- `parseCSV(content, options)` from csv-parser.js, for string content:
BOM strip, tokenize, empty-input check, header extraction or synthesis,
then row construction with mismatch errors. -/
def parseCSV (content : String) (options : ParseOptions := {}) : ParseResult :=
  let lines := tokenizeCSV options content
  if lines.isEmpty then
    { data := [], headers := [], errors := ["Empty CSV content"] }
  else
    let headers :=
      if options.hasHeaders then lines.headD []
      else (List.range (lines.headD []).length).map
        (fun index => "Column " ++ toString (index + 1))
    let dataLines := if options.hasHeaders then lines.tail else lines
    { data := (parseBody headers dataLines).1,
      headers := headers,
      errors := (parseBody headers dataLines).2 }

/-- `parseBody` produces exactly one row per data line. -/
theorem parseBody_data_length (headers : List String)
    (dataLines : List (List String)) :
    (parseBody headers dataLines).1.length = dataLines.length := by
  simp [parseBody]

/-- Flattening singleton-or-empty pieces is mapping over the filter. -/
theorem flatten_map_ite {α β : Type} (l : List α) (q : α → Bool) (g : α → β) :
    (l.map (fun a => if q a then [g a] else [])).flatten = (l.filter q).map g := by
  induction l with
  | nil => simp
  | cons a t ih =>
    by_cases h : q a <;> simp [h, ih]

/--
**C3.** For every input string and options value, `parseCSV` returns a
`ParseResult` (the embedded function is total), and the returned row set
is best-effort: one row per committed data line, no row ever dropped for
a structural anomaly.
-/
theorem parseCSV_total_best_effort (content : String) (options : ParseOptions) :
    ∃ r : ParseResult, parseCSV content options = r ∧
      r.data.length =
        (if options.hasHeaders then (tokenizeCSV options content).tail.length
         else (tokenizeCSV options content).length) := by
  refine ⟨parseCSV content options, rfl, ?_⟩
  simp only [parseCSV]
  split
  next h =>
    have h0 : tokenizeCSV options content = [] := by
      simpa [List.isEmpty_iff] using h
    rw [h0]
    cases options.hasHeaders <;> simp
  next h =>
    simp only [parseBody_data_length]
    cases options.hasHeaders <;> simp

/--
**C4.** Inside quote mode every character other than the quote itself —
delimiters and newlines included — is appended verbatim to the field
accumulator and does not split the field or the row; in particular the
spec's example input with an embedded delimiter and an embedded newline
yields exactly one data row with those characters preserved.
-/
theorem parseCSV_quoted_containment :
    (∀ (delimiter : String) (trimFields skipEmptyLines : Bool) (c : Char)
        (rest : List Char) (st : TokState),
      st.inQuotes = true → ¬ c = '\"' →
      tokenize delimiter trimFields skipEmptyLines (c :: rest) st =
        tokenize delimiter trimFields skipEmptyLines rest
          { st with currentField := st.currentField.push c }) ∧
    parseCSV "name,note\n\"Doe, John\",\"Line1\nLine2\"" {} =
      { data := [[("name", "Doe, John"), ("note", "Line1\nLine2")]],
        headers := ["name", "note"], errors := [] } := by
  constructor
  · intro delimiter trimFields skipEmptyLines c rest st hq hc
    have h1 : (c == '\"') = false := by
      simpa using hc
    cases rest with
    | nil =>
      rw [tokenize_one]
      simp [h1, hq]
    | cons c2 r2 =>
      rw [tokenize_cons2]
      simp [h1, hq]
  · rfl

/-- Witness for the quantified part of C4: a comma consumed in quote mode
is pushed onto the field accumulator. -/
theorem parseCSV_quoted_containment_witness :
    tokenize "" true true [','] ⟨[], [], "x", true⟩ =
      tokenize "" true true [] ⟨[], [], "x,", true⟩ :=
  parseCSV_quoted_containment.1 "" true true ',' []
    ⟨[], [], "x", true⟩ rfl (by decide)

/--
**C5.** A doubled quote character inside quote mode emits one literal
quote into the field and consumes both characters; in particular the
spec's example field parses to a value with one embedded quote.
-/
theorem parseCSV_doubled_quote :
    (∀ (delimiter : String) (trimFields skipEmptyLines : Bool)
        (rest : List Char) (st : TokState),
      st.inQuotes = true →
      tokenize delimiter trimFields skipEmptyLines ('\"' :: '\"' :: rest) st =
        tokenize delimiter trimFields skipEmptyLines rest
          { st with currentField := st.currentField.push '\"' }) ∧
    parseCSV "\"She said \"\"hi\"\"\"" { hasHeaders := false } =
      { data := [[("Column 1", "She said \"hi\"")]],
        headers := ["Column 1"], errors := [] } := by
  constructor
  · intro delimiter trimFields skipEmptyLines rest st hq
    rw [tokenize_cons2]
    simp [hq]
  · rfl

/-- Witness for the quantified part of C5: a doubled quote in quote mode
becomes a single literal quote in the accumulator. -/
theorem parseCSV_doubled_quote_witness :
    tokenize "" true true ['\"', '\"'] ⟨[], [], "x", true⟩ =
      tokenize "" true true [] ⟨[], [], "x\"", true⟩ :=
  parseCSV_doubled_quote.1 "" true true [] ⟨[], [], "x", true⟩ rfl

/--
**C6.** Every data line whose field count differs from the header count
contributes exactly one error string of the form
"Line i has n fields, expected m" (i counted 1-based among data lines),
and still produces a row; lines with matching counts contribute no error.
In particular the spec's example yields one padded row and exactly one
error.
-/
theorem parseCSV_mismatch_errors :
    (∀ (headers : List String) (dataLines : List (List String)),
      (parseBody headers dataLines).2 =
        (dataLines.enum.filter (fun p => p.2.length != headers.length)).map
          (fun p => "Line " ++ toString (p.1 + 1) ++ " has " ++
            toString p.2.length ++ " fields, expected " ++
            toString headers.length) ∧
      (parseBody headers dataLines).1.length = dataLines.length) ∧
    parseCSV "a,b,c\n1,2" {} =
      { data := [[("a", "1"), ("b", "2"), ("c", "")]],
        headers := ["a", "b", "c"],
        errors := ["Line 1 has 2 fields, expected 3"] } := by
  refine ⟨fun headers dataLines => ⟨?_, parseBody_data_length headers dataLines⟩, rfl⟩
  simp only [parseBody, lineError]
  exact flatten_map_ite _ _ _

/--
**C10.** A carriage return not immediately followed by a line feed is
never treated as a line break (in or out of quote mode, as long as the
carriage return is not itself the configured delimiter): it is appended
verbatim to the current field; in particular classic-Mac-style input
"a\rb" parses as a single field containing the carriage return rather
than as two lines.
-/
theorem parseCSV_lone_cr_literal :
    (∀ (delimiter : String) (trimFields skipEmptyLines : Bool)
        (rest : List Char) (st : TokState),
      ¬ delimiter = "\r" → rest.head? ≠ some '\n' →
      tokenize delimiter trimFields skipEmptyLines ('\r' :: rest) st =
        tokenize delimiter trimFields skipEmptyLines rest
          { st with currentField := st.currentField.push '\r' }) ∧
    parseCSV "a\rb" { hasHeaders := false } =
      { data := [[("Column 1", "a\rb")]], headers := ["Column 1"],
        errors := [] } := by
  constructor
  · intro delimiter trimFields skipEmptyLines rest st hd hr
    have hsd : (String.singleton '\r' == delimiter) = false := by
      have hs : String.singleton '\r' = "\r" := rfl
      rw [hs]
      exact beq_eq_false_iff_ne.2 fun h => hd h.symm
    cases rest with
    | nil =>
      rw [tokenize_one]
      simp [hsd]
    | cons c2 r2 =>
      have hc2 : (c2 == '\n') = false := by
        have h2 : ¬ c2 = '\n' := by simpa using hr
        simpa using h2
      rw [tokenize_cons2]
      simp [hsd, hc2]
  · rfl

/-- Witness for the quantified part of C10: with the default comma
delimiter a lone carriage return before a letter is appended to the
field accumulator. -/
theorem parseCSV_lone_cr_literal_witness :
    tokenize "" true true ['\r', 'b'] ⟨[], [], "a", false⟩ =
      tokenize "" true true ['b'] ⟨[], [], "a\r", false⟩ :=
  parseCSV_lone_cr_literal.1 "" true true ['b'] ⟨[], [], "a", false⟩
    (by decide) (by decide)

/--
**C10 (counterexample).** The claim asserts without qualification that a
lone carriage return is appended verbatim to the current field. When the
carriage return is itself the configured delimiter, the delimiter branch
(tested before the line-break branch) consumes it as a field separator
instead: parsing "a\rb" with delimiter "\r" yields two fields, not one
field containing the carriage return. (It is still not treated as a line
break.)
-/
theorem parseCSV_cr_delimiter_splits_field :
    parseCSV "a\rb" { hasHeaders := false, delimiter := "\r" } =
      { data := [[("Column 1", "a"), ("Column 2", "b")]],
        headers := ["Column 1", "Column 2"], errors := [] } ∧
    ¬ (parseCSV "a\rb" { hasHeaders := false, delimiter := "\r" } =
        { data := [[("Column 1", "a\rb")]], headers := ["Column 1"],
          errors := [] }) := by
  refine ⟨rfl, by decide⟩

/-! ### Duplicate header names in the row loop (C9) -/

/-- The (header, value) pairs written by the row-building loop, in column
order: header at index i paired with the field at index i (empty past the
end of the line). -/
def zipVals (headers line : List String) : List (String × String) :=
  headers.enum.map
    (fun p => (p.2, if p.1 < line.length then line.getD p.1 "" else ""))

/-- `makeRow` is the fold of `setKey` over the column pairs. -/
theorem makeRow_eq_foldl_zipVals (headers line : List String) :
    makeRow headers line =
      (zipVals headers line).foldl (fun row e => setKey e.1 e.2 row) [] := by
  simp [makeRow, zipVals, List.foldl_map]

/-- The column pairs carry exactly the header names, in order. -/
theorem zipVals_map_fst (headers line : List String) :
    (zipVals headers line).map Prod.fst = headers := by
  simp only [zipVals, List.map_map]
  exact List.enum_map_snd headers

/-- Looking up the key just written. -/
theorem lookup_setKey_self (k v : String) (m : List (String × String)) :
    List.lookup k (setKey k v m) = some v := by
  induction m with
  | nil => simp [setKey]
  | cons e t ih =>
    obtain ⟨k2, v2⟩ := e
    by_cases h : k2 = k
    · subst h
      simp [setKey]
    · have hb : (k2 == k) = false := by simpa using h
      have hb2 : (k == k2) = false := by
        simpa using (fun hkk => h hkk.symm : ¬ k = k2)
      simp [setKey, hb, hb2, List.lookup, ih]

/-- Writing one key leaves the other keys unchanged. -/
theorem lookup_setKey_ne (k k2 v : String) (m : List (String × String))
    (h : ¬ k2 = k) :
    List.lookup k2 (setKey k v m) = List.lookup k2 m := by
  have hb : (k2 == k) = false := by simpa using h
  induction m with
  | nil => simp [setKey, List.lookup, hb]
  | cons e t ih =>
    obtain ⟨k3, v3⟩ := e
    by_cases h3 : k3 = k
    · subst h3
      simp [setKey, List.lookup, hb]
    · have hb3 : (k3 == k) = false := by simpa using h3
      by_cases h23 : k2 = k3
      · subst h23
        simp [setKey, hb3, List.lookup]
      · have hb23 : (k2 == k3) = false := by simpa using h23
        simp [setKey, hb3, List.lookup, hb23, ih]

/-- `find?` over an append tries the left part first. -/
theorem find?_append_or {α : Type} (l1 l2 : List α) (p : α → Bool) :
    (l1 ++ l2).find? p =
      (match l1.find? p with
       | some x => some x
       | none => l2.find? p) := by
  induction l1 with
  | nil => simp
  | cons a t ih =>
    by_cases h : p a <;> simp [h, ih]

/-- Folding `setKey` over a pair list: a lookup returns the value of the
LAST pair bearing the key, falling back to the initial dictionary. -/
theorem lookup_foldl_setKey (l : List (String × String)) :
    ∀ (m : List (String × String)) (k : String),
      List.lookup k (l.foldl (fun row e => setKey e.1 e.2 row) m) =
        (match l.reverse.find? (fun e => e.1 == k) with
         | some e => some e.2
         | none => List.lookup k m) := by
  induction l with
  | nil => intro m k; simp
  | cons e t ih =>
    intro m k
    obtain ⟨k1, v1⟩ := e
    rw [List.foldl_cons, ih, List.reverse_cons, find?_append_or]
    cases hf : t.reverse.find? (fun e2 => e2.1 == k) with
    | some x => rfl
    | none =>
      by_cases hk : k1 = k
      · subst hk
        simp [List.find?, lookup_setKey_self]
      · have hbk : (k1 == k) = false := by simpa using hk
        have hne : ¬ k = k1 := fun h => hk h.symm
        simp [List.find?, hbk, lookup_setKey_ne k1 k v1 m hne]

/-- The keys of `setKey k v m`: unchanged when `k` is already present,
extended with `k` at the end otherwise. -/
theorem keys_setKey (k v : String) (m : List (String × String)) :
    (setKey k v m).map Prod.fst =
      (if k ∈ m.map Prod.fst then m.map Prod.fst
       else m.map Prod.fst ++ [k]) := by
  induction m with
  | nil => simp [setKey]
  | cons e t ih =>
    obtain ⟨k2, v2⟩ := e
    by_cases h : k2 = k
    · subst h
      simp [setKey]
    · have hb : (k2 == k) = false := by simpa using h
      have h2 : ¬ k = k2 := fun hh => h hh.symm
      by_cases hm : k ∈ t.map Prod.fst
      · simp [setKey, hb, ih, hm, h2]
      · simp [setKey, hb, ih, hm, h2]

/-- Folding `setKey` preserves distinctness of the keys. -/
theorem keys_nodup_foldl (l : List (String × String)) :
    ∀ m : List (String × String), (m.map Prod.fst).Nodup →
      ((l.foldl (fun row e => setKey e.1 e.2 row) m).map Prod.fst).Nodup := by
  induction l with
  | nil => intro m h; simpa using h
  | cons e t ih =>
    intro m h
    rw [List.foldl_cons]
    apply ih
    rw [keys_setKey]
    by_cases hm : e.1 ∈ m.map Prod.fst
    · simpa [hm] using h
    · rw [if_neg hm]
      simp [List.nodup_append, h, hm]

/-- Every key of the fold result comes from the initial dictionary or
from the pair list. -/
theorem mem_keys_foldl (l : List (String × String)) :
    ∀ (m : List (String × String)) (x : String),
      x ∈ (l.foldl (fun row e => setKey e.1 e.2 row) m).map Prod.fst →
      x ∈ m.map Prod.fst ∨ x ∈ l.map Prod.fst := by
  induction l with
  | nil => intro m x h; exact Or.inl (by simpa using h)
  | cons e t ih =>
    intro m x h
    rw [List.foldl_cons] at h
    rcases ih _ x h with h1 | h2
    · rw [keys_setKey] at h1
      by_cases hm : e.1 ∈ m.map Prod.fst
      · rw [if_pos hm] at h1
        exact Or.inl h1
      · rw [if_neg hm] at h1
        rcases List.mem_append.1 h1 with h3 | h3
        · exact Or.inl h3
        · have h4 : x = e.1 := by simpa using h3
          subst h4
          exact Or.inr (by simp)
    · exact Or.inr (by simp [h2])

/-- With a repeated header name the row object has strictly fewer
entries than there are columns. -/
theorem makeRow_length_lt (headers line : List String)
    (h : ¬ headers.Nodup) :
    (makeRow headers line).length < headers.length := by
  rw [makeRow_eq_foldl_zipVals]
  have hkeys : ((((zipVals headers line).foldl
      (fun row e => setKey e.1 e.2 row) []).map Prod.fst)).Nodup :=
    keys_nodup_foldl _ [] (by simp)
  have hsub : ∀ x ∈ (((zipVals headers line).foldl
      (fun row e => setKey e.1 e.2 row) []).map Prod.fst), x ∈ headers := by
    intro x hx
    rcases mem_keys_foldl _ [] x hx with h1 | h2
    · simp at h1
    · rw [zipVals_map_fst] at h2
      exact h2
  have hlen : ((zipVals headers line).foldl
      (fun row e => setKey e.1 e.2 row) []).length =
      ((((zipVals headers line).foldl
        (fun row e => setKey e.1 e.2 row) []).map Prod.fst)).length := by
    simp
  rw [hlen]
  have h1 : ((((zipVals headers line).foldl
      (fun row e => setKey e.1 e.2 row) []).map Prod.fst)).toFinset.card =
      ((((zipVals headers line).foldl
        (fun row e => setKey e.1 e.2 row) []).map Prod.fst)).length :=
    List.toFinset_card_of_nodup hkeys
  have h2 : ((((zipVals headers line).foldl
      (fun row e => setKey e.1 e.2 row) []).map Prod.fst)).toFinset ⊆
      headers.toFinset := by
    intro a ha
    rw [List.mem_toFinset] at ha
    rw [List.mem_toFinset]
    exact hsub a ha
  have h3 := Finset.card_le_card h2
  have h4 : headers.toFinset.card = headers.dedup.length :=
    List.card_toFinset headers
  have h5 : headers.dedup.length < headers.length := by
    have hs := List.dedup_sublist headers
    have hle := hs.length_le
    rcases lt_or_eq_of_le hle with hlt | heq
    · exact hlt
    · exact absurd (List.dedup_eq_self.1 (hs.eq_of_length heq)) h
  omega

/--
**C9.** When the header sequence repeats a name, the row built for a data
line holds a single entry per name (its key list is duplicate-free) whose
value is the field of the LAST column bearing that name; such a row has
strictly fewer entries than there are columns, and the values of earlier
same-named columns do not appear in it — concretely, headers [a, a] with
fields [1, 2] produce the one-entry row [(a, 2)].
-/
theorem parseCSV_duplicate_header_last_wins :
    (∀ (headers line : List String) (k : String),
      List.lookup k (makeRow headers line) =
        (match (zipVals headers line).reverse.find? (fun e => e.1 == k) with
         | some e => some e.2
         | none => none)) ∧
    (∀ headers line : List String,
      ((makeRow headers line).map Prod.fst).Nodup) ∧
    (∀ headers line : List String, ¬ headers.Nodup →
      (makeRow headers line).length < headers.length) ∧
    makeRow ["a", "a"] ["1", "2"] = [("a", "2")] := by
  refine ⟨?_, ?_, makeRow_length_lt, rfl⟩
  · intro headers line k
    rw [makeRow_eq_foldl_zipVals, lookup_foldl_setKey]
    cases (zipVals headers line).reverse.find? (fun e => e.1 == k) <;> simp
  · intro headers line
    rw [makeRow_eq_foldl_zipVals]
    exact keys_nodup_foldl _ [] (by simp)

/-- Witness for the hypothesis-bearing part of C9: duplicated headers
[a, a] give a row with fewer entries than columns. -/
theorem parseCSV_duplicate_header_last_wins_witness :
    (makeRow ["a", "a"] ["1", "2"]).length < (["a", "a"] : List String).length :=
  parseCSV_duplicate_header_last_wins.2.2.1 ["a", "a"] ["1", "2"] (by decide)

/-! ### Column auto-matcher (VueCsvMap.vue autoMatchFields and
VueCsvProcessor.vue autoMapColumns) -/

/-- JS `String.prototype.toLowerCase`, modelled structurally over the
character list (Lean's `String.toLower` is built on byte positions and
does not reduce inside the kernel). -/
def toLowerStr (s : String) : String := ⟨s.data.map Char.toLower⟩

/-- `fields[name].label || name`: the display label, falling back to the
field name when the label is absent or empty (JS falsiness of the empty
string). A field definition is modelled as (name, optional label). -/
def fieldLabel (name : String) (label : Option String) : String :=
  match label with
  | some l => if l == "" then name else l
  | none => name

/-- JS truthiness of `mapping[fieldName]`: the key is present with a
non-empty string value. -/
def mappedTruthy (m : List (String × String)) (k : String) : Bool :=
  match List.lookup k m with
  | some v => v != ""
  | none => false

/-- The header comparison of `autoMatchFields`, per `autoMatchIgnoreCase`:
label-equality OR name-equality, case-folded when ignoreCase is set. -/
def headerMatch (ignoreCase : Bool) (lbl name h : String) : Bool :=
  if ignoreCase then
    toLowerStr h == toLowerStr lbl || toLowerStr h == toLowerStr name
  else
    h == lbl || h == name

/-- The first matching header for a field, if any (`findIndex` followed
by indexing in the source, modelled as `find?`). -/
def amMatch (ignoreCase : Bool) (headers : List String)
    (f : String × Option String) : Option String :=
  headers.find? (headerMatch ignoreCase (fieldLabel f.1 f.2) f.1)

/-- One field step of `autoMatchFields` from VueCsvMap.vue: a field whose
mapping entry is truthy is skipped; otherwise it is mapped to the first
matching header, when one exists. -/
def amStep (ignoreCase : Bool) (headers : List String)
    (m : List (String × String)) (f : String × Option String) :
    List (String × String) :=
  if mappedTruthy m f.1 then m
  else
    match amMatch ignoreCase headers f with
    | some h => setKey f.1 h m
    | none => m

/-- `autoMatchFields` from VueCsvMap.vue: the fold of `amStep` over the
field definitions in object-key order, starting from the existing
mapping. (The component-level guards on the autoMatch prop and on data
presence sit outside the matching algorithm.) -/
def autoMatchFields (ignoreCase : Bool) (headers : List String)
    (fields : List (String × Option String))
    (m : List (String × String)) : List (String × String) :=
  fields.foldl (amStep ignoreCase headers) m

/-- Is `sub` a prefix of the second list? -/
def isPrefixList : List Char → List Char → Bool
  | [], _ => true
  | _ :: _, [] => false
  | a :: as, b :: bs => a == b && isPrefixList as bs

/-- JS `String.prototype.includes`, over character lists. -/
def containsSub : List Char → List Char → Bool
  | [], sub => sub.isEmpty
  | c :: t, sub => isPrefixList sub (c :: t) || containsSub t sub

/-- JS `s.includes(sub)`. -/
def includesStr (s sub : String) : Bool := containsSub s.data sub.data

/-- `autoMapColumns` from VueCsvProcessor.vue: with no parsed headers the
mapping is left untouched; otherwise every existing key is deleted and
each field is mapped to the first case-insensitive exact-match header,
falling back to the first substring-containment match in either
direction. -/
def autoMapColumns (headers : List String)
    (fields : List (String × Option String))
    (m : List (String × String)) : List (String × String) :=
  if headers.isEmpty then m
  else
    fields.foldl
      (fun acc f =>
        let lbl := fieldLabel f.1 f.2
        let matched :=
          match headers.find? (fun h => toLowerStr h == toLowerStr lbl) with
          | some h => some h
          | none =>
            headers.find? (fun h =>
              includesStr (toLowerStr h) (toLowerStr lbl) ||
              includesStr (toLowerStr lbl) (toLowerStr h))
        match matched with
        | some h => setKey f.1 h acc
        | none => acc)
      []

/-- Rewriting a key to the value it already has (at its first occurrence,
the one `List.lookup` sees) leaves the dictionary unchanged. -/
theorem setKey_eq_of_lookup (k v : String) (m : List (String × String))
    (h : List.lookup k m = some v) : setKey k v m = m := by
  induction m with
  | nil => simp [List.lookup] at h
  | cons e t ih =>
    obtain ⟨k2, v2⟩ := e
    by_cases hk : k2 = k
    · subst hk
      have hv : v2 = v := by simpa [List.lookup] using h
      subst hv
      simp [setKey]
    · have hb : (k2 == k) = false := by simpa using hk
      have hb2 : (k == k2) = false := by
        simpa using (fun hh => hk hh.symm : ¬ k = k2)
      rw [List.lookup] at h
      simp only [hb2] at h
      simp [setKey, hb, ih h]

/-- A field is fixed for `amStep` in a mapping: it is truthy, it matches
no header, or its entry already equals its matched header. -/
def amFixed (ignoreCase : Bool) (headers : List String)
    (m : List (String × String)) (f : String × Option String) : Prop :=
  mappedTruthy m f.1 = true ∨ amMatch ignoreCase headers f = none ∨
    (∃ h, amMatch ignoreCase headers f = some h ∧
      List.lookup f.1 m = some h)

/-- `amStep` does nothing on a fixed field. -/
theorem amStep_eq_of_fixed {ic : Bool} {hs : List String}
    {m : List (String × String)} {f : String × Option String}
    (hfix : amFixed ic hs m f) : amStep ic hs m f = m := by
  unfold amStep
  rcases hfix with h1 | h2 | ⟨h, hm, hl⟩
  · simp [h1]
  · by_cases ht : mappedTruthy m f.1
    · simp [ht]
    · simp [ht, h2]
  · by_cases ht : mappedTruthy m f.1
    · simp [ht]
    · simp [ht, hm, setKey_eq_of_lookup f.1 h m hl]

/-- After `amStep` processes a field, that field is fixed. -/
theorem amStep_fixes_self (ic : Bool) (hs : List String)
    (m : List (String × String)) (f : String × Option String) :
    amFixed ic hs (amStep ic hs m f) f := by
  unfold amStep
  by_cases ht : mappedTruthy m f.1
  · rw [if_pos ht]
    exact Or.inl ht
  · rw [if_neg ht]
    cases hm : amMatch ic hs f with
    | none => exact Or.inr (Or.inl hm)
    | some h =>
      by_cases hh : h = ""
      · subst hh
        exact Or.inr (Or.inr ⟨"", hm, lookup_setKey_self f.1 "" m⟩)
      · refine Or.inl ?_
        simp [mappedTruthy, lookup_setKey_self, hh]

/-- Later `amStep`s keep a field fixed: steps only write their own key,
never downgrade a truthy entry, and rewrite a falsy shared key to the
same deterministic match. -/
theorem amStep_preserves_fixed {ic : Bool} {hs : List String}
    {m : List (String × String)} {g : String × Option String}
    (f : String × Option String)
    (hfix : amFixed ic hs m g) : amFixed ic hs (amStep ic hs m f) g := by
  unfold amStep
  by_cases ht : mappedTruthy m f.1
  · rw [if_pos ht]
    exact hfix
  · rw [if_neg ht]
    cases hm : amMatch ic hs f with
    | none => exact hfix
    | some h =>
      by_cases hfg : f.1 = g.1
      · rcases hfix with h1 | h2 | ⟨hv, hmv, hlv⟩
        · exact absurd (by rw [hfg]; exact h1) ht
        · exact Or.inr (Or.inl h2)
        · by_cases hhe : h = ""
          · refine Or.inr (Or.inr ⟨hv, hmv, ?_⟩)
            have hveq : hv = "" := by
              rw [hfg] at ht
              by_contra hne
              apply ht
              simp [mappedTruthy, hlv]
              exact hne
            subst hveq
            subst hhe
            rw [← hfg]
            exact lookup_setKey_self f.1 "" m
          · refine Or.inl ?_
            rw [← hfg]
            simp [mappedTruthy, lookup_setKey_self, hhe]
      · have hne : ¬ g.1 = f.1 := fun hh => hfg hh.symm
        have hlk := lookup_setKey_ne f.1 g.1 h m hne
        rcases hfix with h1 | h2 | ⟨hv, hmv, hlv⟩
        · refine Or.inl ?_
          simpa [mappedTruthy, hlk] using h1
        · exact Or.inr (Or.inl h2)
        · exact Or.inr (Or.inr ⟨hv, hmv, by rw [hlk]; exact hlv⟩)

/-- Fixedness survives a whole fold of `amStep`s. -/
theorem foldl_amStep_preserves_fixed {ic : Bool} {hs : List String}
    (fields : List (String × Option String)) :
    ∀ (m : List (String × String)) (g : String × Option String),
      amFixed ic hs m g →
      amFixed ic hs (fields.foldl (amStep ic hs) m) g := by
  induction fields with
  | nil => intro m g h; simpa using h
  | cons f t ih =>
    intro m g h
    rw [List.foldl_cons]
    exact ih _ g (amStep_preserves_fixed f h)

/-- After the full fold every processed field is fixed. -/
theorem foldl_amStep_all_fixed {ic : Bool} {hs : List String}
    (fields : List (String × Option String)) :
    ∀ (m : List (String × String)) (f : String × Option String),
      f ∈ fields → amFixed ic hs (fields.foldl (amStep ic hs) m) f := by
  induction fields with
  | nil => intro m f h; simp at h
  | cons g t ih =>
    intro m f hf
    rw [List.foldl_cons]
    rcases List.mem_cons.1 hf with rfl | hmem
    · exact foldl_amStep_preserves_fixed t _ f (amStep_fixes_self ic hs m f)
    · exact ih _ f hmem

/-- A fold of `amStep`s over fields that are all fixed is the identity. -/
theorem foldl_amStep_eq_of_all_fixed {ic : Bool} {hs : List String}
    (fields : List (String × Option String)) :
    ∀ m : List (String × String),
      (∀ f ∈ fields, amFixed ic hs m f) →
      fields.foldl (amStep ic hs) m = m := by
  induction fields with
  | nil => intro m _; rfl
  | cons g t ih =>
    intro m h
    rw [List.foldl_cons, amStep_eq_of_fixed (h g (by simp))]
    exact ih m (fun f hf => h f (List.mem_cons_of_mem g hf))

/--
**C2 (counterexample).** The claim states that the auto-match operation
never overwrites an existing non-empty mapping entry, for every headers
sequence, field map and existing mapping. The processor-level
`autoMapColumns` clears the mapping before matching: with headers [B],
the single field f labelled B, and the existing mapping f -> X, it
returns f -> B, overwriting the non-empty entry X.
-/
theorem autoMapColumns_overwrites_existing :
    autoMapColumns ["B"] [("f", some "B")] [("f", "X")] = [("f", "B")] ∧
    List.lookup "f" [("f", "X")] = some "X" ∧
    ¬ (("X" : String) = "B") := by
  refine ⟨rfl, rfl, by decide⟩

/--
**C2 (amended).** The VueCsvMap auto-match (`autoMatchFields`) never
overwrites an existing non-empty mapping entry and running it twice on
the same headers and fields equals running it once; the processor-level
`autoMapColumns` instead clears the existing mapping first (so existing
entries are not preserved), but its result depends only on the headers
and fields, so running it twice also equals running it once.
-/
theorem autoMatch_preserved_and_idempotent :
    (∀ (ignoreCase : Bool) (headers : List String)
        (fields : List (String × Option String))
        (m : List (String × String)) (k v : String),
      List.lookup k m = some v → ¬ v = "" →
      List.lookup k (autoMatchFields ignoreCase headers fields m) = some v) ∧
    (∀ (ignoreCase : Bool) (headers : List String)
        (fields : List (String × Option String))
        (m : List (String × String)),
      autoMatchFields ignoreCase headers fields
          (autoMatchFields ignoreCase headers fields m) =
        autoMatchFields ignoreCase headers fields m) ∧
    (∀ (headers : List String) (fields : List (String × Option String))
        (m : List (String × String)),
      autoMapColumns headers fields (autoMapColumns headers fields m) =
        autoMapColumns headers fields m) := by
  refine ⟨?_, ?_, ?_⟩
  · intro ic headers fields
    induction fields with
    | nil =>
      intro m k v h hv
      simpa [autoMatchFields] using h
    | cons f t ih =>
      intro m k v h hv
      have hstep : List.lookup k (amStep ic headers m f) = some v := by
        unfold amStep
        by_cases ht : mappedTruthy m f.1
        · simp [ht, h]
        · cases hf : amMatch ic headers f with
          | none => simp [ht, hf, h]
          | some hh =>
            rw [if_neg ht]
            simp only [hf]
            by_cases hk : f.1 = k
            · exfalso
              apply ht
              subst hk
              simp [mappedTruthy, h]
              exact hv
            · have hne : ¬ k = f.1 := fun h2 => hk h2.symm
              rw [lookup_setKey_ne f.1 k hh m hne]
              exact h
      have := ih (amStep ic headers m f) k v hstep hv
      simpa [autoMatchFields, List.foldl_cons] using this
  · intro ic headers fields m
    exact foldl_amStep_eq_of_all_fixed fields _
      (fun f hf => foldl_amStep_all_fixed fields m f hf)
  · intro headers fields m
    unfold autoMapColumns
    by_cases he : headers.isEmpty
    · simp [he]
    · simp [he]

/-- Witness for the hypothesis-bearing part of the amended C2: an entry
f -> X survives an auto-match pass that maps another field. -/
theorem autoMatch_preserved_and_idempotent_witness :
    List.lookup "f"
      (autoMatchFields true ["Name"] [("name", none)] [("f", "X")]) =
      some "X" :=
  autoMatch_preserved_and_idempotent.1 true ["Name"] [("name", none)]
    [("f", "X")] "f" "X" (by decide) (by decide)

end CsvProcessor
